import Mathlib

/-!
Verification of the Windows time-compatibility shims of lcod-kernel-rs
(`src/ci/sys/time.h` and `src/ci/quickjs_win_compat.h`).

The headers provide, on `_WIN32`, a `gettimeofday` replacement built on the
host clock query `_ftime_s`, an `alloca` alias, and (in `sys/time.h`) an
`include_next` forward to the platform header on every other target.

The embedding below models the runtime behaviour of the shim functions as
pure functions of the host clock reply (the status returned by `_ftime_s`
and the `struct _timeb` it fills), together with a small model of the
compile-time definitions each header contributes.  Machine integers are
modelled as `Int` with explicit two's-complement truncation at the width of
the platform `long` type (a parameter `longBits`; 32 on the Windows target).
-/

namespace LcodQjsCompat

/-- Two's-complement interpretation of an integer `x` truncated to a signed
machine integer of width `w` bits: reduce modulo `2^w` into `[0, 2^w)`, then
shift the upper half down by `2^w`.  This models a C cast to a signed
integer type of width `w` (and likewise wrap-around of width-`w` signed
arithmetic, which never actually overflows in the code at hand). -/
def toSigned (w : Nat) (x : Int) : Int :=
  let m := x % ((2 : Int) ^ w)
  if m < (2 : Int) ^ (w - 1) then m else m - (2 : Int) ^ w

/-- The caller-supplied destination record of `gettimeofday`:
`struct timeval` with two `long` fields. -/
structure timeval where
  tv_sec : Int
  tv_usec : Int
deriving DecidableEq, Repr

/-- The host clock reply record: `struct _timeb` as filled by `_ftime_s`.
`time` is the 64-bit seconds-since-epoch field (`__time64_t`), `millitm`
the millisecond component (`unsigned short`, hence below `65536`; a real
host clock keeps it below `1000`). -/
structure timeb where
  time : Int
  millitm : Nat
deriving DecidableEq, Repr

/-- The shim `gettimeofday` of `src/ci/sys/time.h` (lines 14-23).  Inputs
beyond the C signature make the host interaction explicit: `status` is the
value returned by the single `_ftime_s` call and `tb` the record it filled;
`tv` is the destination record as it stood before the call, returned
unchanged when the early `-1` return fires.  `tz` is the unused time-zone
pointer (`(void)tz;`), modelled as an optional value so that `none` stands
for a null pointer.  `tv->tv_sec = (long)tb.time` is a cast of the 64-bit
time to `long`; `tv->tv_usec = tb.millitm * 1000` multiplies in `int`
arithmetic (the `unsigned short` promotes to `int`) and then converts the
result to `long`. -/
def gettimeofday (longBits : Nat) (status : Int) (tb : timeb) (tz : Option Int)
    (tv : timeval) : Int × timeval :=
  if status ≠ 0 then
    (-1, tv)
  else
    (0, { tv_sec := toSigned longBits tb.time
          tv_usec := toSigned longBits (toSigned 32 ((tb.millitm : Int) * 1000)) })

/-- The shim `qjs_gettimeofday` of `src/ci/quickjs_win_compat.h` (lines
14-22).  Same host-interaction convention as `gettimeofday` above; this
variant has no time-zone parameter, and computes
`tv->tv_usec = (long)tb.millitm * 1000` in `long` arithmetic (the
`unsigned short` is cast to `long` before the multiplication). -/
def qjs_gettimeofday (longBits : Nat) (status : Int) (tb : timeb)
    (tv : timeval) : Int × timeval :=
  if status ≠ 0 then
    (-1, tv)
  else
    (0, { tv_sec := toSigned longBits tb.time
          tv_usec := toSigned longBits (toSigned longBits (tb.millitm : Int) * 1000) })

/-- The `gettimeofday(tv, tz)` redirect of `src/ci/quickjs_win_compat.h`
line 26: it evaluates and discards `tz` (`(void)(tz)`) and forwards to
`qjs_gettimeofday(tv)`. -/
def gettimeofday_compat (longBits : Nat) (status : Int) (tb : timeb)
    (tz : Option Int) (tv : timeval) : Int × timeval :=
  qjs_gettimeofday longBits status tb tv

/-- Definitions contributed by `src/ci/quickjs_win_compat.h` for a given
compile-time configuration: whether `_WIN32` is defined, whether
`HAVE_GETTIMEOFDAY` was already defined before inclusion, and whether
`alloca` was already defined.  On `_WIN32` the header always defines the
static inline function `qjs_gettimeofday`; it defines the `gettimeofday`
redirect only when `HAVE_GETTIMEOFDAY` was absent, and the `alloca` alias
only when `alloca` was absent.  Outside `_WIN32` it defines nothing. -/
structure WinCompatDefs where
  qjs_gettimeofday_defined : Bool
  gettimeofday_redirect_defined : Bool
  alloca_alias_defined : Bool
deriving DecidableEq, Repr

/-- Compile-time behaviour of `src/ci/quickjs_win_compat.h` (lines 4-29). -/
def quickjs_win_compat (win32 : Bool) (have_gettimeofday : Bool)
    (alloca_already : Bool) : WinCompatDefs :=
  if win32 then
    { qjs_gettimeofday_defined := true
      gettimeofday_redirect_defined := !have_gettimeofday
      alloca_alias_defined := !alloca_already }
  else
    { qjs_gettimeofday_defined := false
      gettimeofday_redirect_defined := false
      alloca_alias_defined := false }

/-- Definitions contributed by `src/ci/sys/time.h` for a given compile-time
configuration.  On `_WIN32` it defines the static inline function
`gettimeofday` and, when `alloca` was absent, the `alloca` alias; outside
`_WIN32` it contributes nothing of its own and forwards via
`include_next` to the next `sys/time.h` on the search path. -/
structure SysTimeDefs where
  gettimeofday_fn_defined : Bool
  alloca_alias_defined : Bool
  forwards_to_next : Bool
deriving DecidableEq, Repr

/-- Compile-time behaviour of `src/ci/sys/time.h` (lines 4-27). -/
def sys_time_header (win32 : Bool) (alloca_already : Bool) : SysTimeDefs :=
  if win32 then
    { gettimeofday_fn_defined := true
      alloca_alias_defined := !alloca_already
      forwards_to_next := false }
  else
    { gettimeofday_fn_defined := false
      alloca_alias_defined := false
      forwards_to_next := true }

/-- Index (counting from `base`) of the first file in the remaining search
path whose name matches the requested one.  Helper for the `include_next`
model. -/
def find_idx_from : List String → String → Nat → Option Nat
  | [], _, _ => none
  | f :: rest, name, base =>
    if f = name then some base else find_idx_from rest name (base + 1)

/-- Resolution of `#include_next <name>` as used at line 26 of
`src/ci/sys/time.h`: the preprocessor resumes the search for `name` at the
position strictly after the directory in which the current file (at index
`cur` on the search path) was found, rather than from the beginning. -/
def include_next_resolve (path : List String) (name : String) (cur : Nat) :
    Option Nat :=
  find_idx_from (path.drop (cur + 1)) name (cur + 1)

/-- Declarations visible after including `src/ci/sys/time.h`, where
`platform_header` stands for the declaration set of the platform copy of
`sys/time.h` that `include_next` reaches outside `_WIN32`, and `shim_decls`
abbreviates the declarations of the `_WIN32` branch. -/
def shim_decls : List String :=
  ["alloca", "gettimeofday"]

/-- Expansion of `src/ci/sys/time.h`: the shim declarations on `_WIN32`,
and exactly the platform header outside it. -/
def sys_time_expansion (win32 : Bool) (platform_header : List String) :
    List String :=
  if win32 then shim_decls else platform_header

section ToSignedLemmas

/-- A value already in the signed range of width `w` is unchanged by
truncation to width `w`. -/
theorem toSigned_eq_self (w : Nat) (x : Int) (hw : 1 ≤ w)
    (h1 : -(2 ^ (w - 1)) ≤ x) (h2 : x < 2 ^ (w - 1)) : toSigned w x = x := by
  have hsplit : ((2 : Int) ^ w) = 2 ^ (w - 1) * 2 := by
    conv_lhs => rw [show w = (w - 1) + 1 by omega]
    rw [pow_succ]
  have hpos : (0 : Int) < 2 ^ (w - 1) := by positivity
  unfold toSigned
  rcases le_or_lt 0 x with hx | hx
  · have hlt : x < (2 : Int) ^ w := by omega
    rw [Int.emod_eq_of_lt hx hlt]
    simp only [if_pos h2]
  · have hrw : x % ((2 : Int) ^ w) = x + 2 ^ w := by
      have : (x + 2 ^ w * 1) % 2 ^ w = x % 2 ^ w :=
        Int.add_mul_emod_self_left x (2 ^ w) 1
      rw [mul_one] at this
      rw [← this, Int.emod_eq_of_lt (by omega) (by omega)]
    rw [hrw]
    have hge : ¬ (x + 2 ^ w < (2 : Int) ^ (w - 1)) := by omega
    simp only [if_neg hge]
    omega

/-- Truncation to width `w ≥ 1` always lands in the signed range. -/
theorem toSigned_range (w : Nat) (x : Int) (hw : 1 ≤ w) :
    -(2 ^ (w - 1)) ≤ toSigned w x ∧ toSigned w x < 2 ^ (w - 1) := by
  have hsplit : ((2 : Int) ^ w) = 2 ^ (w - 1) * 2 := by
    conv_lhs => rw [show w = (w - 1) + 1 by omega]
    rw [pow_succ]
  have hpos : (0 : Int) < 2 ^ w := by positivity
  have hlo : 0 ≤ x % ((2 : Int) ^ w) := Int.emod_nonneg x (by positivity)
  have hhi : x % ((2 : Int) ^ w) < 2 ^ w := Int.emod_lt_of_pos x hpos
  unfold toSigned
  by_cases h : x % ((2 : Int) ^ w) < 2 ^ (w - 1)
  · simp only [if_pos h]; omega
  · simp only [if_neg h]; omega

/-- Truncation preserves the residue modulo `2^w`. -/
theorem toSigned_emod (w : Nat) (x : Int) :
    toSigned w x % 2 ^ w = x % 2 ^ w := by
  unfold toSigned
  by_cases h : x % ((2 : Int) ^ w) < 2 ^ (w - 1)
  · simp only [if_pos h, Int.emod_emod_of_dvd _ dvd_rfl]
  · simp only [if_neg h]
    rw [sub_eq_add_neg, ← neg_one_mul, mul_comm]
    rw [Int.add_mul_emod_self_left, Int.emod_emod_of_dvd _ dvd_rfl]

/-- Monotone bound used to lift the 32-bit range into a wider `long`. -/
theorem two_pow_le_of_le (a b : Nat) (h : a ≤ b) :
    ((2 : Int) ^ a) ≤ 2 ^ b :=
  pow_le_pow_right₀ (by norm_num) h

end ToSignedLemmas

section UsecEval

/-- The `int`-arithmetic microsecond computation of `sys/time.h` evaluates
exactly: for any `unsigned short` value the product with 1000 fits in both
`int` and any `long` of at least 32 bits. -/
theorem usec_sys_eval (lb m : Nat) (hlb : 32 ≤ lb) (hm : m < 65536) :
    toSigned lb (toSigned 32 ((m : Int) * 1000)) = m * 1000 := by
  have hmi : (m : Int) < 65536 := by exact_mod_cast hm
  have hm0 : (0 : Int) ≤ (m : Int) := Int.ofNat_nonneg m
  have h31 : ((2 : Int) ^ (32 - 1)) = 2147483648 := by norm_num
  have hle : ((2 : Int) ^ (32 - 1)) ≤ 2 ^ (lb - 1) :=
    two_pow_le_of_le (32 - 1) (lb - 1) (by omega)
  have hin : toSigned 32 ((m : Int) * 1000) = (m : Int) * 1000 :=
    toSigned_eq_self 32 _ (by norm_num) (by omega) (by omega)
  rw [hin]
  exact toSigned_eq_self lb _ (by omega) (by omega) (by omega)

/-- The `long`-arithmetic microsecond computation of `quickjs_win_compat.h`
evaluates exactly as well. -/
theorem usec_qjs_eval (lb m : Nat) (hlb : 32 ≤ lb) (hm : m < 65536) :
    toSigned lb (toSigned lb (m : Int) * 1000) = m * 1000 := by
  have hmi : (m : Int) < 65536 := by exact_mod_cast hm
  have hm0 : (0 : Int) ≤ (m : Int) := Int.ofNat_nonneg m
  have h31 : ((2 : Int) ^ (32 - 1)) = 2147483648 := by norm_num
  have hle : ((2 : Int) ^ (32 - 1)) ≤ 2 ^ (lb - 1) :=
    two_pow_le_of_le (32 - 1) (lb - 1) (by omega)
  have hcast : toSigned lb (m : Int) = (m : Int) :=
    toSigned_eq_self lb _ (by omega) (by omega) (by omega)
  rw [hcast]
  exact toSigned_eq_self lb _ (by omega) (by omega) (by omega)

end UsecEval

section Claims

/-- C1 (corrected): on success the shim writes `tv_sec = tb.time` and
`tv_usec = tb.millitm * 1000` — but only under the amending precondition
that the host seconds value is representable in the platform `long` type
(width `longBits ≥ 32`, with `tb.millitm` in the `unsigned short` range).
Without that precondition the cast `(long)tb.time` truncates, see
`gettimeofday_wraps_at_2_31`. -/
theorem gettimeofday_success_fields (lb : Nat) (s : Int) (tb : timeb)
    (tz : Option Int) (tv : timeval) (hlb : 32 ≤ lb) (hs : s = 0)
    (h1 : -(2 ^ (lb - 1)) ≤ tb.time) (h2 : tb.time < 2 ^ (lb - 1))
    (hm : tb.millitm < 65536) :
    gettimeofday lb s tb tz tv = (0, ⟨tb.time, (tb.millitm : Int) * 1000⟩) ∧
    qjs_gettimeofday lb s tb tv = (0, ⟨tb.time, (tb.millitm : Int) * 1000⟩) := by
  subst hs
  have hsec : toSigned lb tb.time = tb.time :=
    toSigned_eq_self lb tb.time (by omega) h1 h2
  constructor
  · simp [gettimeofday, hsec, usec_sys_eval lb tb.millitm hlb hm]
  · simp [qjs_gettimeofday, hsec, usec_qjs_eval lb tb.millitm hlb hm]

/-- C1 (counterexample): with the target's 32-bit `long`, a host seconds
value of `2^31` (January 2038) is not stored as the integral number of
seconds since epoch — the cast `(long)tb.time` wraps it to `-2^31`. -/
theorem gettimeofday_wraps_at_2_31 :
    (gettimeofday 32 0 ⟨2 ^ 31, 0⟩ none ⟨0, 0⟩).2.tv_sec ≠ 2 ^ 31 ∧
    (gettimeofday 32 0 ⟨2 ^ 31, 0⟩ none ⟨0, 0⟩).2.tv_sec = -(2 ^ 31) := by
  constructor <;> decide

/-- Witness for `gettimeofday_success_fields` at a concrete host reply. -/
theorem gettimeofday_success_fields_witness :
    gettimeofday 32 0 ⟨123, 456⟩ none ⟨9, 9⟩ = (0, ⟨123, 456000⟩) ∧
    qjs_gettimeofday 32 0 ⟨123, 456⟩ ⟨9, 9⟩ = (0, ⟨123, 456000⟩) :=
  gettimeofday_success_fields 32 0 ⟨123, 456⟩ none ⟨9, 9⟩ (by decide) rfl
    (by decide) (by decide) (by decide)

/-- C2 (confirmed): the shim returns 0 iff the single `_ftime_s` query
succeeds (status 0) and -1 iff it fails (nonzero status); the return value
is exactly `if status = 0 then 0 else -1`, so no other value is ever
produced and the result is fully determined by that one query.  Both shim
variants behave identically in this respect. -/
theorem gettimeofday_return_value (lb : Nat) (s : Int) (tb : timeb)
    (tz : Option Int) (tv : timeval) :
    ((gettimeofday lb s tb tz tv).1 = 0 ↔ s = 0) ∧
    ((gettimeofday lb s tb tz tv).1 = -1 ↔ s ≠ 0) ∧
    (gettimeofday lb s tb tz tv).1 = (if s = 0 then 0 else -1) ∧
    (qjs_gettimeofday lb s tb tv).1 = (if s = 0 then 0 else -1) := by
  by_cases hs : s = 0 <;> simp [gettimeofday, qjs_gettimeofday, hs]

/-- C3 (confirmed): whenever the host millisecond component is in
`[0, 999]`, every successful call writes a `tv_usec` in `[0, 999000]` that
is an exact multiple of 1000, in both shim variants (`longBits ≥ 32` as
the C standard guarantees for `long`). -/
theorem tv_usec_range (lb : Nat) (s : Int) (tb : timeb) (tz : Option Int)
    (tv : timeval) (hlb : 32 ≤ lb) (hs : s = 0) (hm : tb.millitm ≤ 999) :
    0 ≤ (gettimeofday lb s tb tz tv).2.tv_usec ∧
    (gettimeofday lb s tb tz tv).2.tv_usec ≤ 999000 ∧
    1000 ∣ (gettimeofday lb s tb tz tv).2.tv_usec ∧
    (qjs_gettimeofday lb s tb tv).2.tv_usec =
      (gettimeofday lb s tb tz tv).2.tv_usec := by
  subst hs
  have hm' : tb.millitm < 65536 := by omega
  have hval : (gettimeofday lb 0 tb tz tv).2.tv_usec = (tb.millitm : Int) * 1000 := by
    simp [gettimeofday, usec_sys_eval lb tb.millitm hlb hm']
  have hval' : (qjs_gettimeofday lb 0 tb tv).2.tv_usec = (tb.millitm : Int) * 1000 := by
    simp [qjs_gettimeofday, usec_qjs_eval lb tb.millitm hlb hm']
  have hmi : (tb.millitm : Int) ≤ 999 := by exact_mod_cast hm
  have hm0 : (0 : Int) ≤ (tb.millitm : Int) := Int.ofNat_nonneg _
  refine ⟨?_, ?_, ?_, ?_⟩
  · rw [hval]; positivity
  · rw [hval]; nlinarith
  · rw [hval]; exact Dvd.intro_left _ rfl
  · rw [hval, hval']

/-- Witness for `tv_usec_range` at a concrete host reply. -/
theorem tv_usec_range_witness :
    0 ≤ (gettimeofday 32 0 ⟨77, 999⟩ none ⟨0, 0⟩).2.tv_usec ∧
    (gettimeofday 32 0 ⟨77, 999⟩ none ⟨0, 0⟩).2.tv_usec ≤ 999000 ∧
    1000 ∣ (gettimeofday 32 0 ⟨77, 999⟩ none ⟨0, 0⟩).2.tv_usec ∧
    (qjs_gettimeofday 32 0 ⟨77, 999⟩ ⟨0, 0⟩).2.tv_usec =
      (gettimeofday 32 0 ⟨77, 999⟩ none ⟨0, 0⟩).2.tv_usec :=
  tv_usec_range 32 0 ⟨77, 999⟩ none ⟨0, 0⟩ (by decide) rfl (by decide)

/-- C4 (confirmed): the time-zone argument is never read — two calls that
differ only in `tz` (null included, as `none`) return the same value and
write the same fields; and the `gettimeofday` redirect of
`quickjs_win_compat.h` discards `tz` entirely, forwarding to
`qjs_gettimeofday`. -/
theorem tz_never_affects_outcome (lb : Nat) (s : Int) (tb : timeb)
    (tz1 tz2 : Option Int) (tv : timeval) :
    gettimeofday lb s tb tz1 tv = gettimeofday lb s tb tz2 tv ∧
    gettimeofday_compat lb s tb tz1 tv = qjs_gettimeofday lb s tb tv :=
  ⟨rfl, rfl⟩

/-- C5 (confirmed): when `_ftime_s` fails (nonzero status), both shim
variants return -1 and leave the caller-supplied record exactly as it was:
the early return precedes every write, so `tv_sec` and `tv_usec` keep
their prior values. -/
theorem error_leaves_tv_unwritten (lb : Nat) (s : Int) (tb : timeb)
    (tz : Option Int) (tv : timeval) (hs : s ≠ 0) :
    gettimeofday lb s tb tz tv = (-1, tv) ∧
    qjs_gettimeofday lb s tb tv = (-1, tv) := by
  simp [gettimeofday, qjs_gettimeofday, hs]

/-- Witness for `error_leaves_tv_unwritten` at a failing host query. -/
theorem error_leaves_tv_unwritten_witness :
    gettimeofday 32 22 ⟨5, 6⟩ none ⟨41, 42⟩ = (-1, ⟨41, 42⟩) ∧
    qjs_gettimeofday 32 22 ⟨5, 6⟩ ⟨41, 42⟩ = (-1, ⟨41, 42⟩) :=
  error_leaves_tv_unwritten 32 22 ⟨5, 6⟩ none ⟨41, 42⟩ (by decide)

/-- C6 (confirmed): with a 32-bit `long`, for every host seconds value not
representable in a 32-bit signed `long` the stored `tv_sec` is congruent to
the true seconds-since-epoch modulo `2^32` (the truncating cast) and is not
equal to the true value — in both shim variants. -/
theorem tv_sec_truncated_mod_2_32 (s : Int) (tb : timeb) (tz : Option Int)
    (tv : timeval) (hs : s = 0)
    (hout : tb.time < -(2 ^ 31) ∨ 2 ^ 31 ≤ tb.time) :
    (gettimeofday 32 s tb tz tv).2.tv_sec % 2 ^ 32 = tb.time % 2 ^ 32 ∧
    (gettimeofday 32 s tb tz tv).2.tv_sec ≠ tb.time ∧
    (qjs_gettimeofday 32 s tb tv).2.tv_sec % 2 ^ 32 = tb.time % 2 ^ 32 ∧
    (qjs_gettimeofday 32 s tb tv).2.tv_sec ≠ tb.time := by
  subst hs
  have hsec : (gettimeofday 32 0 tb tz tv).2.tv_sec = toSigned 32 tb.time := by
    simp [gettimeofday]
  have hsec' : (qjs_gettimeofday 32 0 tb tv).2.tv_sec = toSigned 32 tb.time := by
    simp [qjs_gettimeofday]
  have hrange := toSigned_range 32 tb.time (by norm_num)
  have h31 : ((2 : Int) ^ (32 - 1)) = 2 ^ 31 := by norm_num
  rw [h31] at hrange
  have hne : toSigned 32 tb.time ≠ tb.time := by
    intro heq
    rw [heq] at hrange
    omega
  exact ⟨by rw [hsec]; exact toSigned_emod 32 tb.time, by rw [hsec]; exact hne,
    by rw [hsec']; exact toSigned_emod 32 tb.time, by rw [hsec']; exact hne⟩

/-- Witness for `tv_sec_truncated_mod_2_32` at the first unrepresentable
second, `2^31`. -/
theorem tv_sec_truncated_mod_2_32_witness :
    (gettimeofday 32 0 ⟨2 ^ 31, 0⟩ none ⟨0, 0⟩).2.tv_sec % 2 ^ 32 =
      (2 ^ 31 : Int) % 2 ^ 32 ∧
    (gettimeofday 32 0 ⟨2 ^ 31, 0⟩ none ⟨0, 0⟩).2.tv_sec ≠ (2 ^ 31 : Int) ∧
    (qjs_gettimeofday 32 0 ⟨2 ^ 31, 0⟩ ⟨0, 0⟩).2.tv_sec % 2 ^ 32 =
      (2 ^ 31 : Int) % 2 ^ 32 ∧
    (qjs_gettimeofday 32 0 ⟨2 ^ 31, 0⟩ ⟨0, 0⟩).2.tv_sec ≠ (2 ^ 31 : Int) :=
  tv_sec_truncated_mod_2_32 0 ⟨2 ^ 31, 0⟩ none ⟨0, 0⟩ rfl (by decide)

/-- C7 (counterexample): across the `2^31` rollover the host clock is
non-decreasing (`2^31 - 1 ≤ 2^31`) yet the second successful call stores a
strictly smaller `tv_sec` than the first, because the cast to a 32-bit
`long` wraps. -/
theorem tv_sec_not_monotone_at_rollover :
    ((2 ^ 31 - 1 : Int) ≤ 2 ^ 31) ∧
    (gettimeofday 32 0 ⟨2 ^ 31, 0⟩ none ⟨0, 0⟩).2.tv_sec <
      (gettimeofday 32 0 ⟨2 ^ 31 - 1, 0⟩ none ⟨0, 0⟩).2.tv_sec := by
  constructor <;> decide

/-- C7 (corrected): two consecutive successful calls with non-decreasing
host seconds yield non-decreasing `tv_sec` — under the amending
precondition that both host seconds values are representable in the
platform `long` (without it the rollover counterexample
`tv_sec_not_monotone_at_rollover` applies). -/
theorem tv_sec_monotone (lb : Nat) (s1 s2 : Int) (tb1 tb2 : timeb)
    (tz1 tz2 : Option Int) (tv1 tv2 : timeval) (hlb : 32 ≤ lb)
    (h1 : s1 = 0) (h2 : s2 = 0)
    (ha : -(2 ^ (lb - 1)) ≤ tb1.time) (hb : tb1.time < 2 ^ (lb - 1))
    (hc : -(2 ^ (lb - 1)) ≤ tb2.time) (hd : tb2.time < 2 ^ (lb - 1))
    (hmono : tb1.time ≤ tb2.time) :
    (gettimeofday lb s1 tb1 tz1 tv1).2.tv_sec ≤
      (gettimeofday lb s2 tb2 tz2 tv2).2.tv_sec := by
  subst h1; subst h2
  have e1 : (gettimeofday lb 0 tb1 tz1 tv1).2.tv_sec = toSigned lb tb1.time := by
    simp [gettimeofday]
  have e2 : (gettimeofday lb 0 tb2 tz2 tv2).2.tv_sec = toSigned lb tb2.time := by
    simp [gettimeofday]
  rw [e1, e2, toSigned_eq_self lb tb1.time (by omega) ha hb,
    toSigned_eq_self lb tb2.time (by omega) hc hd]
  exact hmono

/-- Witness for `tv_sec_monotone` at two concrete consecutive replies. -/
theorem tv_sec_monotone_witness :
    (gettimeofday 32 0 ⟨100, 1⟩ none ⟨0, 0⟩).2.tv_sec ≤
      (gettimeofday 32 0 ⟨101, 2⟩ none ⟨0, 0⟩).2.tv_sec :=
  tv_sec_monotone 32 0 0 ⟨100, 1⟩ ⟨101, 2⟩ none none ⟨0, 0⟩ ⟨0, 0⟩
    (by decide) rfl rfl (by decide) (by decide) (by decide) (by decide)
    (by decide)

/-- C8 (confirmed): for every identical host clock reply (any status, any
`_timeb` with `millitm` in the `unsigned short` range) the two shim
implementations return the same value and write the same `tv_sec` and
`tv_usec`; the `gettimeofday` redirect of `quickjs_win_compat.h` agrees as
well, so the only divergence between the headers is the compile-time
`HAVE_GETTIMEOFDAY` guard, not runtime behaviour. -/
theorem shims_behaviorally_equivalent (lb : Nat) (s : Int) (tb : timeb)
    (tz : Option Int) (tv : timeval) (hlb : 32 ≤ lb)
    (hm : tb.millitm < 65536) :
    qjs_gettimeofday lb s tb tv = gettimeofday lb s tb tz tv ∧
    gettimeofday_compat lb s tb tz tv = gettimeofday lb s tb tz tv := by
  have h : qjs_gettimeofday lb s tb tv = gettimeofday lb s tb tz tv := by
    by_cases hs : s = 0
    · subst hs
      simp [gettimeofday, qjs_gettimeofday, usec_sys_eval lb tb.millitm hlb hm,
        usec_qjs_eval lb tb.millitm hlb hm]
    · simp [gettimeofday, qjs_gettimeofday, hs]
  exact ⟨h, h⟩

/-- Witness for `shims_behaviorally_equivalent` at a concrete reply. -/
theorem shims_behaviorally_equivalent_witness :
    qjs_gettimeofday 32 0 ⟨1700000000, 250⟩ ⟨0, 0⟩ =
      gettimeofday 32 0 ⟨1700000000, 250⟩ none ⟨0, 0⟩ ∧
    gettimeofday_compat 32 0 ⟨1700000000, 250⟩ none ⟨0, 0⟩ =
      gettimeofday 32 0 ⟨1700000000, 250⟩ none ⟨0, 0⟩ :=
  shims_behaviorally_equivalent 32 0 ⟨1700000000, 250⟩ none ⟨0, 0⟩
    (by decide) (by decide)

/-- C9 (counterexample): on the `_WIN32` branch with `HAVE_GETTIMEOFDAY`
already defined, `quickjs_win_compat.h` still defines the shim function
`qjs_gettimeofday` and the `alloca` alias (only the `gettimeofday`
redirect is skipped), and `sys/time.h` still defines its shim function —
contradicting the claim that on every platform where the native facility
already exists nothing of the shim is defined. -/
theorem shim_defined_despite_have_gettimeofday :
    (quickjs_win_compat true true false).qjs_gettimeofday_defined = true ∧
    (quickjs_win_compat true true false).alloca_alias_defined = true ∧
    (sys_time_header true false).gettimeofday_fn_defined = true := by
  constructor
  · rfl
  · constructor <;> rfl

/-- C9 (corrected): outside `_WIN32` neither header defines anything — no
shim function, no `gettimeofday` redirect, no `alloca` alias — and
`sys/time.h` forwards to the native header unmodified; and when `_WIN32`
holds but `HAVE_GETTIMEOFDAY` is already defined, `quickjs_win_compat.h`
omits only the `gettimeofday` redirect, while its shim function (and,
when `alloca` was absent, the `alloca` alias) is still compiled. -/
theorem shim_absent_outside_win32 (hg a : Bool) :
    quickjs_win_compat false hg a =
      { qjs_gettimeofday_defined := false
        gettimeofday_redirect_defined := false
        alloca_alias_defined := false } ∧
    sys_time_header false a =
      { gettimeofday_fn_defined := false
        alloca_alias_defined := false
        forwards_to_next := true } ∧
    (quickjs_win_compat true true a).gettimeofday_redirect_defined = false ∧
    (quickjs_win_compat true true a).qjs_gettimeofday_defined = true := by
  cases hg <;> cases a <;> exact ⟨rfl, rfl, rfl, rfl⟩

/-- Specification of `find_idx_from`: a hit lies at or after the base
index, within the list, and carries the requested name. -/
theorem find_idx_from_spec (l : List String) (name : String) :
    ∀ (base j : Nat), find_idx_from l name base = some j →
      base ≤ j ∧ j - base < l.length ∧ l.getD (j - base) "" = name := by
  induction l with
  | nil => intro base j h; simp [find_idx_from] at h
  | cons f rest ih =>
    intro base j h
    by_cases hf : f = name
    · simp [find_idx_from, hf] at h
      subst h
      exact ⟨le_refl _, by simp, by simpa using hf⟩
    · simp only [find_idx_from, if_neg hf] at h
      obtain ⟨h1, h2, h3⟩ := ih (base + 1) j h
      refine ⟨by omega, by simp only [List.length_cons]; omega, ?_⟩
      have hj : j - base = (j - (base + 1)) + 1 := by omega
      rw [hj, List.getD_cons_succ]
      exact h3

/-- C10 (confirmed): outside `_WIN32` the redirect header contributes no
declarations of its own and its expansion is exactly the platform header
(zero behavioral change); and `include_next` resolution always lands at an
index strictly beyond the current file on the search path — it requests
the next file of the same name rather than re-including itself, so no
inclusion cycle arises — at a position that indeed carries the requested
name. -/
theorem include_next_forwards_without_cycle (platform_header : List String)
    (a : Bool) (path : List String) (name : String) (cur j : Nat)
    (h : include_next_resolve path name cur = some j) :
    sys_time_expansion false platform_header = platform_header ∧
    sys_time_header false a =
      { gettimeofday_fn_defined := false
        alloca_alias_defined := false
        forwards_to_next := true } ∧
    cur < j ∧ path.getD j "" = name := by
  unfold include_next_resolve at h
  obtain ⟨h1, h2, h3⟩ := find_idx_from_spec (path.drop (cur + 1)) name (cur + 1) j h
  refine ⟨rfl, by cases a <;> rfl, by omega, ?_⟩
  rw [List.getD_eq_getElem?_getD path j ""]
  rw [List.getD_eq_getElem?_getD] at h3
  rw [List.getElem?_drop] at h3
  have hj : cur + 1 + (j - (cur + 1)) = j := by omega
  rw [hj] at h3
  exact h3

/-- Witness for `include_next_forwards_without_cycle` on a two-entry
search path holding the shim at index 0 and the platform header at
index 1. -/
theorem include_next_forwards_without_cycle_witness :
    sys_time_expansion false ["timeval", "gettimeofday"] =
      ["timeval", "gettimeofday"] ∧
    sys_time_header false false =
      { gettimeofday_fn_defined := false
        alloca_alias_defined := false
        forwards_to_next := true } ∧
    0 < 1 ∧ (["sys/time.h", "sys/time.h"] : List String).getD 1 "" =
      "sys/time.h" :=
  include_next_forwards_without_cycle ["timeval", "gettimeofday"] false
    ["sys/time.h", "sys/time.h"] "sys/time.h" 0 1 (by decide)

end Claims

end LcodQjsCompat
